import Mathlib

/-!
Verification of the predicate-subsumption and predicate-partitioning core of a
document-query engine (matcher/expression_algo.cpp): the pairwise subsumption
comparators, the logical recursion engine isSubsetOf, the tree splitter, and
the dependency/independence analyzer.

Predicate trees are shallowly embedded as the mutual inductive MatchExpr and
MEList below.  External collaborators (the value-comparison oracle, the
structural-equivalence test on nodes, the geometry oracle and the dependency
tracker) are not part of the translated source; they are modelled from the
specification and marked as such in their doc comments.
-/

namespace MongoMatcher

/-- A collation reference: either absent (simple binary collation) or an
identifier of a named collation.  Borrowed, never owned, by leaf nodes. -/
abbrev Collator := Option Nat

/-- Modelled from the spec: the collation-equality test of the value oracle
(CollatorInterface::collatorsMatch): two collators match when both are absent
or both refer to the same collation. -/
def collatorsMatch (a b : Collator) : Bool := a == b

/-- Modelled from the spec: the value domain seen by the comparators.  A BSON
value is abstracted to the cases the core distinguishes: null, a double NaN, a
non-NaN numeric value, a string, and a boolean.  Comparison leaves never hold
a missing or undefined value. -/
inductive BsonValue where
  | nullV : BsonValue
  | nanV : BsonValue
  | numV (n : Int) : BsonValue
  | strV (s : String) : BsonValue
  | boolV (b : Bool) : BsonValue
  deriving DecidableEq

/-- Modelled from the spec: the canonical-type-family classification of the
value oracle.  NaN is a double, hence in the numeric family. -/
def canonicalType : BsonValue → Nat
  | .nullV => 5
  | .nanV => 10
  | .numV _ => 10
  | .strV _ => 15
  | .boolV _ => 40

/-- Modelled from the spec: NaN detection of the value oracle
(std::isnan applied to numberDouble(); false for every non-NaN value). -/
def isNaN : BsonValue → Bool
  | .nanV => true
  | _ => false

/-- Modelled from the spec: CollationIndexKey::isCollatableType.  Of the
modelled value cases only strings are collation-sensitive. -/
def isCollatableType : BsonValue → Bool
  | .strV _ => true
  | _ => false

/-- Modelled from the spec: the type/collation-aware 3-way comparison of the
value oracle (BSONElement comparison).  Values of different canonical type
families order by family; within a family the natural order is used, with NaN
below every other number.  The collation argument is kept in the signature
(the source always passes the right-hand collation) but the modelled order is
collation-independent, which is sound here because the comparators
short-circuit on a collation mismatch before comparing collatable values. -/
def compareBson (_c : Collator) (a b : BsonValue) : Int :=
  if canonicalType a < canonicalType b then -1
  else if canonicalType b < canonicalType a then 1
  else match a, b with
    | .nanV, .nanV => 0
    | .nanV, .numV _ => -1
    | .numV _, .nanV => 1
    | .numV x, .numV y => if x < y then -1 else if x = y then 0 else 1
    | .strV x, .strV y => if x < y then -1 else if x = y then 0 else 1
    | .boolV x, .boolV y =>
        match x, y with
        | false, true => -1
        | true, false => 1
        | _, _ => 0
    | _, _ => 0

/-- The comparison operator kinds shared by the ordinary family
($lt, $lte, $eq, $gte, $gt) and the internal-expression family
($_internalExprLt, ..., $_internalExprGt). -/
inductive CompOp where
  | lt | lte | eq | gte | gt
  deriving DecidableEq

/-- The kind tags (MatchExpression::MatchType) of the node kinds this core
inspects. -/
inductive MatchType where
  | AND | OR | NOR | NOT | INTERNAL_SCHEMA_XOR
  | LT | LTE | EQ | GTE | GT
  | INTERNAL_EXPR_LT | INTERNAL_EXPR_LTE | INTERNAL_EXPR_EQ
  | INTERNAL_EXPR_GTE | INTERNAL_EXPR_GT
  | MATCH_IN | EXISTS | GEO | MOD | REGEX | SIZE | TYPE_OPERATOR
  | ELEM_MATCH_VALUE | ELEM_MATCH_OBJECT | EXPRESSION
  | INTERNAL_BUCKET_GEO_WITHIN
  deriving DecidableEq

/-- Kind tag of an ordinary comparison leaf. -/
def compMatchType : CompOp → MatchType
  | .lt => .LT
  | .lte => .LTE
  | .eq => .EQ
  | .gte => .GTE
  | .gt => .GT

/-- Kind tag of an internal-expression comparison leaf. -/
def internalExprMatchType : CompOp → MatchType
  | .lt => .INTERNAL_EXPR_LT
  | .lte => .INTERNAL_EXPR_LTE
  | .eq => .INTERNAL_EXPR_EQ
  | .gte => .INTERNAL_EXPR_GTE
  | .gt => .INTERNAL_EXPR_GT

/-- The node categories (MatchExpression::MatchCategory). -/
inductive MatchCategory where
  | kLeaf | kLogical | kArrayMatching | kOther
  deriving DecidableEq

/-- Payload of a comparison leaf (ordinary or internal-expression family):
operator kind, dotted field path, comparison value, borrowed collation. -/
structure CompLeaf where
  op : CompOp
  path : String
  value : BsonValue
  collator : Collator
  deriving DecidableEq

/-- Payload of a $in leaf: field path, the equality members, the number of
regex members (only emptiness of the regex set is ever inspected), and the
borrowed collation. -/
structure InLeaf where
  path : String
  equalities : List BsonValue
  regexCount : Nat
  collator : Collator
  deriving DecidableEq

/-- Payload of a geo leaf.  The geometry payloads are opaque handles consumed
only by the geometry oracle; isWithin records whether the predicate kind of
the query is geoWithin, and hasGeometry whether its serialized form uses the
geometry operator. -/
structure GeoLeaf where
  path : String
  isWithin : Bool
  hasGeometry : Bool
  geometry : Nat
  region : Nat
  deriving DecidableEq

/-- Payload of a bucketed-geo-within node: the bucket field name, whether the
query form uses the geometry operator, and opaque geometry/region handles. -/
structure BucketGeoLeaf where
  field : String
  hasGeometry : Bool
  geometry : Nat
  region : Nat
  deriving DecidableEq

/-- The non-comparison leaf kinds that are opaque to this core apart from
their kind tag and path. -/
inductive OtherLeafKind where
  | modK | regexK | sizeK | typeK | elemMatchValueK | elemMatchObjectK
  deriving DecidableEq

mutual
/-- A predicate tree node: a tagged variant over logical connectives and leaf
predicate kinds, with exclusively-owned ordered children for logical nodes.
The exprK constructor is the wrapped-aggregation-expression leaf; its payload
is the field-path set its expression reads (delivered by the external
dependency tracker). -/
inductive MatchExpr where
  | cmpK (c : CompLeaf) : MatchExpr
  | intCmpK (c : CompLeaf) : MatchExpr
  | inK (i : InLeaf) : MatchExpr
  | existsK (path : String) : MatchExpr
  | geoK (g : GeoLeaf) : MatchExpr
  | bucketGeoK (b : BucketGeoLeaf) : MatchExpr
  | otherK (k : OtherLeafKind) (path : String) : MatchExpr
  | exprK (deps : List String) : MatchExpr
  | notK (child : MatchExpr) : MatchExpr
  | andK (cs : MEList) : MatchExpr
  | orK (cs : MEList) : MatchExpr
  | norK (cs : MEList) : MatchExpr
  | xorK (cs : MEList) : MatchExpr

/-- An owned ordered list of children. -/
inductive MEList where
  | nil : MEList
  | cons (hd : MatchExpr) (tl : MEList) : MEList
end

/-- Kind tag of a node. -/
def MatchExpr.matchType : MatchExpr → MatchType
  | .cmpK c => compMatchType c.op
  | .intCmpK c => internalExprMatchType c.op
  | .inK _ => .MATCH_IN
  | .existsK _ => .EXISTS
  | .geoK _ => .GEO
  | .bucketGeoK _ => .INTERNAL_BUCKET_GEO_WITHIN
  | .otherK .modK _ => .MOD
  | .otherK .regexK _ => .REGEX
  | .otherK .sizeK _ => .SIZE
  | .otherK .typeK _ => .TYPE_OPERATOR
  | .otherK .elemMatchValueK _ => .ELEM_MATCH_VALUE
  | .otherK .elemMatchObjectK _ => .ELEM_MATCH_OBJECT
  | .exprK _ => .EXPRESSION
  | .notK _ => .NOT
  | .andK _ => .AND
  | .orK _ => .OR
  | .norK _ => .NOR
  | .xorK _ => .INTERNAL_SCHEMA_XOR

/-- Category of a node (MatchExpression::getCategory). -/
def MatchExpr.category : MatchExpr → MatchCategory
  | .cmpK _ => .kLeaf
  | .intCmpK _ => .kLeaf
  | .inK _ => .kLeaf
  | .existsK _ => .kLeaf
  | .geoK _ => .kLeaf
  | .bucketGeoK _ => .kOther
  | .otherK .modK _ => .kLeaf
  | .otherK .regexK _ => .kLeaf
  | .otherK .typeK _ => .kLeaf
  | .otherK .sizeK _ => .kArrayMatching
  | .otherK .elemMatchValueK _ => .kArrayMatching
  | .otherK .elemMatchObjectK _ => .kArrayMatching
  | .exprK _ => .kOther
  | .notK _ => .kLogical
  | .andK _ => .kLogical
  | .orK _ => .kLogical
  | .norK _ => .kLogical
  | .xorK _ => .kLogical

/-- Dotted field path of a node; empty for pure logical nodes, the expression
wrapper and the bucketed-geo node. -/
def MatchExpr.path : MatchExpr → String
  | .cmpK c => c.path
  | .intCmpK c => c.path
  | .inK i => i.path
  | .existsK p => p
  | .geoK g => g.path
  | .otherK _ p => p
  | _ => ""

/-- Whether the equality set of a $in leaf contains null
(InMatchExpression::hasNull). -/
def InLeaf.hasNull (i : InLeaf) : Bool := i.equalities.contains .nullV

mutual
/-- Modelled from the spec: the structural-equivalence test of the
predicate-node interface (MatchExpression::equivalent), consumed through a
narrow interface by the logical recursion engine.  Two nodes are equivalent
when they have the same kind, payload and, for logical nodes, pointwise
equivalent children in the same order. -/
def equivalentME : MatchExpr → MatchExpr → Bool
  | .cmpK a, .cmpK b => a == b
  | .intCmpK a, .intCmpK b => a == b
  | .inK a, .inK b => a == b
  | .existsK a, .existsK b => a == b
  | .geoK a, .geoK b => a == b
  | .bucketGeoK a, .bucketGeoK b => a == b
  | .otherK k p, .otherK k2 p2 => k == k2 && p == p2
  | .exprK a, .exprK b => a == b
  | .notK a, .notK b => equivalentME a b
  | .andK a, .andK b => equivalentList a b
  | .orK a, .orK b => equivalentList a b
  | .norK a, .norK b => equivalentList a b
  | .xorK a, .xorK b => equivalentList a b
  | _, _ => false

/-- Pointwise structural equivalence of two child lists. -/
def equivalentList : MEList → MEList → Bool
  | .nil, .nil => true
  | .cons a as, .cons b bs => equivalentME a b && equivalentList as bs
  | _, _ => false
end

/-- Whether a comparison operator kind supports equality: LTE, EQ and GTE do,
LT and GT do not. -/
def supportsEquality : CompOp → Bool
  | .lte => true
  | .eq => true
  | .gte => true
  | _ => false

/-- Pairwise subsumption between two ordinary comparison leaves
(the static overload of the underscore-prefixed isSubsetOf on two
ComparisonMatchExpression nodes): requires equal paths and canonical type
families, special-cases NaN, short-circuits on a collation mismatch for
collatable values, then decides by the signed ordering cmp of the two values
under the right-hand collation: equivalence when the operators are identical
and cmp is zero, otherwise the tie-break table. -/
def isSubsetOfCompComp (lhs rhs : CompLeaf) : Bool :=
  if lhs.path != rhs.path then false
  else if canonicalType lhs.value != canonicalType rhs.value then false
  else if isNaN lhs.value || isNaN rhs.value then
    (if supportsEquality lhs.op && supportsEquality rhs.op then
      isNaN lhs.value && isNaN rhs.value
    else false)
  else if !collatorsMatch lhs.collator rhs.collator && isCollatableType lhs.value then
    false
  else
    let cmp := compareBson rhs.collator lhs.value rhs.value
    if lhs.op == rhs.op && cmp == 0 then true
    else
      match rhs.op with
      | .lt | .lte =>
        match lhs.op with
        | .lt | .lte | .eq =>
            if rhs.op == CompOp.lte then decide (cmp ≤ 0) else decide (cmp < 0)
        | _ => false
      | .gt | .gte =>
        match lhs.op with
        | .gt | .gte | .eq =>
            if rhs.op == CompOp.gte then decide (cmp ≥ 0) else decide (cmp > 0)
        | _ => false
      | _ => false

/-- Pairwise subsumption between two internal-expression comparison leaves
(the underscore-prefixed isSubsetOfInternalExpr on two
ComparisonMatchExpressionBase nodes): same shape as the ordinary family but a
raw value comparison with no NaN or canonical-type special-casing.  The two
inner conditions compare the right-hand kind tag against the ordinary LTE and
GTE tags, exactly as the source does: since the right-hand tag here is always
an INTERNAL_EXPR tag, those conditions never hold. -/
def isSubsetOfInternalExprCC (lhs rhs : CompLeaf) : Bool :=
  if lhs.path != rhs.path then false
  else if !collatorsMatch lhs.collator rhs.collator && isCollatableType lhs.value then
    false
  else
    let cmp := compareBson rhs.collator lhs.value rhs.value
    if internalExprMatchType lhs.op == internalExprMatchType rhs.op && cmp == 0 then
      true
    else
      match rhs.op with
      | .lt | .lte =>
        match lhs.op with
        | .lt | .lte | .eq =>
            if internalExprMatchType rhs.op == MatchType.LTE then decide (cmp ≤ 0)
            else decide (cmp < 0)
        | _ => false
      | .gt | .gte =>
        match lhs.op with
        | .gt | .gte | .eq =>
            if internalExprMatchType rhs.op == MatchType.GTE then decide (cmp ≥ 0)
            else decide (cmp > 0)
        | _ => false
      | _ => false

/-- Pairwise subsumption of an arbitrary node under an internal-expression
comparison leaf: paths must match and the left side must itself be an
internal-expression comparison. -/
def isSubsetOfInternalExprRhs (lhs : MatchExpr) (rhs : CompLeaf) : Bool :=
  if lhs.path != rhs.path then false
  else
    match lhs with
    | .intCmpK c => isSubsetOfInternalExprCC c rhs
    | _ => false

/-- Pairwise subsumption of an arbitrary node under an ordinary comparison
leaf: paths must match; a comparison lhs dispatches to the leaf pair
comparator; a $in lhs is a subset when its regex set is empty and every
equality member, treated as an equality leaf on the same path with the $in
collation, is a subset of rhs. -/
def isSubsetOfCompRhs (lhs : MatchExpr) (rhs : CompLeaf) : Bool :=
  if lhs.path != rhs.path then false
  else
    match lhs with
    | .cmpK c => isSubsetOfCompComp c rhs
    | .inK i =>
        if i.regexCount != 0 then false
        else
          i.equalities.all fun elem =>
            isSubsetOfCompComp ⟨CompOp.eq, i.path, elem, i.collator⟩ rhs
    | _ => false

/-- Pairwise subsumption of an arbitrary node under a $in leaf: paths must
match, the $in set must have no regexes, and at least one equality member,
treated as an equality leaf, must have lhs as its subset. -/
def isSubsetOfInRhs (lhs : MatchExpr) (rhs : InLeaf) : Bool :=
  if lhs.path != rhs.path then false
  else if rhs.regexCount != 0 then false
  else
    rhs.equalities.any fun elem =>
      isSubsetOfCompRhs lhs ⟨CompOp.eq, rhs.path, elem, rhs.collator⟩

/-- Pairwise subsumption of an arbitrary node under an exists leaf on the
given path: paths must match except for a negation, whose path check is
deferred to its single child; a comparison leaf implies existence unless its
value is null; the listed leaf kinds always imply existence; a $in leaf
implies existence when it has no null member; a negation implies existence
only if its child on the same path is an equality to null or a $in containing
null. -/
def isSubsetOfExistsRhs (lhs : MatchExpr) (rpath : String) : Bool :=
  if lhs.matchType != MatchType.NOT && lhs.path != rpath then false
  else
    match lhs with
    | .cmpK c => c.value != BsonValue.nullV
    | .otherK _ _ => true
    | .existsK _ => true
    | .geoK _ => true
    | .inK i => !i.hasNull
    | .notK child =>
        if child.path != rpath then false
        else
          match child with
          | .cmpK c =>
              if c.op == CompOp.eq then c.value == BsonValue.nullV else false
          | .inK i => i.hasNull
          | _ => false
    | _ => false

/-- Modelled from the spec: the geometry oracle, answering whether the region
handle of an index predicate contains the geometry handle of a query
predicate.  The handles are opaque; an arbitrary executable containment
relation stands in for the oracle, whose behavior no claim depends on. -/
def geoOracleContains (region geometry : Nat) : Bool := decide (geometry ≤ region)

/-- The leaf-dispatch tail of the logical recursion engine: the two geo
branches, then dispatch on the rhs kind to the pairwise comparators, then the
conservative false. -/
def isSubsetOfDispatch (lhs rhs : MatchExpr) : Bool :=
  match lhs, rhs with
  | .bucketGeoK q, .bucketGeoK idx =>
      q.field == idx.field && q.hasGeometry && geoOracleContains idx.region q.geometry
  | .geoK q, .geoK idx =>
      q.isWithin && q.hasGeometry && geoOracleContains idx.region q.geometry
  | _, _ =>
      match rhs with
      | .cmpK c => isSubsetOfCompRhs lhs c
      | .intCmpK c => isSubsetOfInternalExprRhs lhs c
      | .existsK p => isSubsetOfExistsRhs lhs p
      | .inK i => isSubsetOfInRhs lhs i
      | _ => false

mutual
/-- The lhs-decomposition phase of the logical recursion engine, entered once
the rhs is known not to be a disjunction or conjunction: structural
equivalence, then lhs-as-conjunction (some conjunct suffices), then
lhs-as-disjunction (every disjunct must), then leaf dispatch.  In the source
this is the tail of the single recursive isSubsetOf; it is factored out here
so that both recursions are structural, and the composed function satisfies
the source equations. -/
def isSubsetOfLhs (rhs : MatchExpr) : MatchExpr → Bool
  | .andK cs =>
      if equivalentME (.andK cs) rhs then true else isSubsetOfLhsAny rhs cs
  | .orK cs =>
      if equivalentME (.orK cs) rhs then true else isSubsetOfLhsAll rhs cs
  | lhs => if equivalentME lhs rhs then true else isSubsetOfDispatch lhs rhs

/-- At least one clause of an lhs conjunction matches a subset of rhs. -/
def isSubsetOfLhsAny (rhs : MatchExpr) : MEList → Bool
  | .nil => false
  | .cons c cs => isSubsetOfLhs rhs c || isSubsetOfLhsAny rhs cs

/-- Every clause of an lhs disjunction matches a subset of rhs. -/
def isSubsetOfLhsAll (rhs : MatchExpr) : MEList → Bool
  | .nil => true
  | .cons c cs => isSubsetOfLhs rhs c && isSubsetOfLhsAll rhs cs
end

mutual
/-- The logical recursion engine: sound but intentionally incomplete test
that the match set of lhs is contained in the match set of rhs.  Decision
order as in the source: structural equivalence first; then rhs-as-disjunction
(subset of at least one disjunct) and rhs-as-conjunction (subset of every
conjunct) before any lhs decomposition; then the lhs-decomposition phase and
leaf dispatch. -/
def isSubsetOf (lhs : MatchExpr) : MatchExpr → Bool
  | .orK cs =>
      if equivalentME lhs (.orK cs) then true else isSubsetOfAnyRhs lhs cs
  | .andK cs =>
      if equivalentME lhs (.andK cs) then true else isSubsetOfAllRhs lhs cs
  | rhs => isSubsetOfLhs rhs lhs

/-- lhs matches a subset of at least one clause of an rhs disjunction. -/
def isSubsetOfAnyRhs (lhs : MatchExpr) : MEList → Bool
  | .nil => false
  | .cons c cs => isSubsetOf lhs c || isSubsetOfAnyRhs lhs cs

/-- lhs matches a subset of every clause of an rhs conjunction. -/
def isSubsetOfAllRhs (lhs : MatchExpr) : MEList → Bool
  | .nil => true
  | .cons c cs => isSubsetOf lhs c && isSubsetOfAllRhs lhs cs
end

/-- Dotted-path prefix test (expression::isPathPrefixOf): first must be
strictly shorter than second, second must start with first, and the next
character of second must be the path separator. -/
def isPathPrefixOf (first second : String) : Bool :=
  if first.length ≥ second.length then false
  else List.isPrefixOf first.data second.data && second.data.getD first.length ' ' == '.'

mutual
/-- Whether every node of the tree belongs to a category with defined rename
behavior (hasOnlyRenameableMatchExpressionChildren): the aggregation
expression wrapper qualifies; array-matching and opaque-other categories do
not; logical nodes require every child to qualify; other leaves qualify. -/
def hasOnlyRenameableMatchExpressionChildren : MatchExpr → Bool
  | .exprK _ => true
  | .otherK .sizeK _ => false
  | .otherK .elemMatchValueK _ => false
  | .otherK .elemMatchObjectK _ => false
  | .bucketGeoK _ => false
  | .notK c => hasOnlyRenameableMatchExpressionChildren c
  | .andK cs => renameableList cs
  | .orK cs => renameableList cs
  | .norK cs => renameableList cs
  | .xorK cs => renameableList cs
  | _ => true

/-- Every child of a logical node has only renameable descendants. -/
def renameableList : MEList → Bool
  | .nil => true
  | .cons c cs => hasOnlyRenameableMatchExpressionChildren c && renameableList cs
end

mutual
/-- Modelled from the spec: the dependency tracker, a visitor producing the
set of field paths a predicate subtree reads.  A leaf reads its own path, an
aggregation-expression wrapper reads the paths recorded in its payload, and a
logical node reads the union of its children. -/
def depsFields : MatchExpr → List String
  | .cmpK c => [c.path]
  | .intCmpK c => [c.path]
  | .inK i => [i.path]
  | .existsK p => [p]
  | .geoK g => [g.path]
  | .bucketGeoK b => [b.field]
  | .otherK _ p => [p]
  | .exprK ds => ds
  | .notK c => depsFields c
  | .andK cs => depsList cs
  | .orK cs => depsList cs
  | .norK cs => depsList cs
  | .xorK cs => depsList cs

/-- Union (as concatenation) of the field paths read by a child list. -/
def depsList : MEList → List String
  | .nil => []
  | .cons c cs => depsFields c ++ depsList cs
end

/-- The per-field test of the independence analyzer: the referenced field is
not a member of the path set and neither a dotted prefix nor a dotted
extension of any of its members. -/
def fieldFreeOf (pathSet : List String) (field : String) : Bool :=
  !(pathSet.contains field ||
    pathSet.any fun p => isPathPrefixOf field p || isPathPrefixOf p field)

/-- The independence analyzer: false for trees containing nodes without
rename behavior; otherwise true when no referenced field path equals, is a
dotted prefix of, or is a dotted extension of any member of the path set. -/
def isIndependentOf (expr : MatchExpr) (pathSet : List String) : Bool :=
  if !hasOnlyRenameableMatchExpressionChildren expr then false
  else (depsFields expr).all (fieldFreeOf pathSet)

/-- The reconstruction helper for split $and pieces (createAndOfNodes): an
empty child list collapses to absent, a single child to that child, and
otherwise a fresh conjunction owns the children. -/
def createAndOfNodes : MEList → Option MatchExpr
  | .nil => none
  | .cons c .nil => some c
  | cs => some (.andK cs)

/-- The reconstruction helper for split $nor pieces (createNorOfNodes): an
empty child list collapses to absent, otherwise a fresh $nor owns the
children (a single surviving clause is kept as a one-clause $nor). -/
def createNorOfNodes : MEList → Option MatchExpr
  | .nil => none
  | cs => some (.norK cs)

/-- Prepend a present optional node to a child list, drop an absent one. -/
def optCons : Option MatchExpr → MEList → MEList
  | none, l => l
  | some e, l => .cons e l

mutual
/-- The tree splitter (splitMatchExpressionByFunction): partitions a tree
into the parts satisfying the split predicate and the remaining parts.  A
node wholly satisfying the predicate splits out; a non-logical node is
atomic and stays; a conjunction splits every conjunct recursively and
rebuilds each side; a $nor moves a clause out only when the entire clause
satisfies the predicate; a disjunction, negation or schema-exclusive-or stays
whole in the remainder. -/
def splitMatchExpressionByFunction (expr : MatchExpr) (fields : List String)
    (shouldSplitOut : MatchExpr → List String → Bool) :
    Option MatchExpr × Option MatchExpr :=
  if shouldSplitOut expr fields then (some expr, none)
  else if expr.category != MatchCategory.kLogical then (none, some expr)
  else
    match expr with
    | .andK cs =>
        let parts := splitAndChildren cs fields shouldSplitOut
        (createAndOfNodes parts.1, createAndOfNodes parts.2)
    | .norK cs =>
        let parts := splitNorChildren cs fields shouldSplitOut
        (createNorOfNodes parts.1, createNorOfNodes parts.2)
    | e => (none, some e)

/-- The conjunction loop of the splitter: each conjunct is split recursively
and its present pieces are appended to the split-out and remaining lists in
order. -/
def splitAndChildren (cs : MEList) (fields : List String)
    (shouldSplitOut : MatchExpr → List String → Bool) : MEList × MEList :=
  match cs with
  | .nil => (.nil, .nil)
  | .cons c rest =>
      let child := splitMatchExpressionByFunction c fields shouldSplitOut
      let tail := splitAndChildren rest fields shouldSplitOut
      (optCons child.1 tail.1, optCons child.2 tail.2)

/-- The $nor loop of the splitter: a clause moves to the split-out list only
when the whole clause satisfies the predicate; its structure is never
decomposed. -/
def splitNorChildren (cs : MEList) (fields : List String)
    (shouldSplitOut : MatchExpr → List String → Bool) : MEList × MEList :=
  match cs with
  | .nil => (.nil, .nil)
  | .cons c rest =>
      let tail := splitNorChildren rest fields shouldSplitOut
      if shouldSplitOut c fields then (.cons c tail.1, tail.2)
      else (tail.1, .cons c tail.2)
end

mutual
/-- Whether the internal assertion of the conjunction branch of the splitter
(that every recursive call returns at least one present output) holds
throughout the split of the given tree. -/
def splitInvariantOk (expr : MatchExpr) (fields : List String)
    (shouldSplitOut : MatchExpr → List String → Bool) : Bool :=
  if shouldSplitOut expr fields then true
  else if expr.category != MatchCategory.kLogical then true
  else
    match expr with
    | .andK cs => splitInvariantOkList cs fields shouldSplitOut
    | _ => true

/-- The assertion holds for each conjunct: its recursive split has at least
one present output, and the assertion holds inside its own split too. -/
def splitInvariantOkList (cs : MEList) (fields : List String)
    (shouldSplitOut : MatchExpr → List String → Bool) : Bool :=
  match cs with
  | .nil => true
  | .cons c rest =>
      let child := splitMatchExpressionByFunction c fields shouldSplitOut
      (child.1.isSome || child.2.isSome) &&
        splitInvariantOk c fields shouldSplitOut &&
        splitInvariantOkList rest fields shouldSplitOut
end

/-- Pointwise filter on a child list, keeping clauses whole. -/
def filterMEList (p : MatchExpr → Bool) : MEList → MEList
  | .nil => .nil
  | .cons c cs => if p c then .cons c (filterMEList p cs) else filterMEList p cs

/-- Pointwise Boolean predicate over a child list. -/
def allMEList (p : MatchExpr → Bool) : MEList → Bool
  | .nil => true
  | .cons c cs => p c && allMEList p cs

mutual
/-- Well-formedness used by the amended splitter postcondition: every $and
and $nor node of the tree has at least one child. -/
def connectivesNonempty : MatchExpr → Bool
  | .andK .nil => false
  | .norK .nil => false
  | .andK cs => connectivesNonemptyList cs
  | .orK cs => connectivesNonemptyList cs
  | .norK cs => connectivesNonemptyList cs
  | .xorK cs => connectivesNonemptyList cs
  | .notK c => connectivesNonempty c
  | _ => true

/-- Every member of a child list satisfies connectivesNonempty. -/
def connectivesNonemptyList : MEList → Bool
  | .nil => true
  | .cons c cs => connectivesNonempty c && connectivesNonemptyList cs
end

/-- The subsumption rule for an $exists rhs as the specification states it,
written from the spec wording for comparison against the translated code:
paths must match except for a negation (deferred to its child); a comparison
leaf implies existence unless its value is null; element-match, exists, geo,
modulo, regex, size and type-operator leaves always imply existence; a $in
leaf implies existence when it has no null equality member; and a negation
implies existence only if its single child on the rhs path is an equality to
null or a $in containing null. -/
def specExistsSubset (lhs : MatchExpr) (rpath : String) : Bool :=
  match lhs with
  | .cmpK c => c.path == rpath && c.value != BsonValue.nullV
  | .existsK p => p == rpath
  | .geoK g => g.path == rpath
  | .otherK _ p => p == rpath
  | .inK i => i.path == rpath && !i.hasNull
  | .notK child =>
      child.path == rpath &&
      (match child with
       | .cmpK c => c.op == CompOp.eq && c.value == BsonValue.nullV
       | .inK i => i.hasNull
       | _ => false)
  | _ => false

/-- Field path used throughout the concrete examples. -/
def pathA : String := "a"

/-- Second field path used throughout the concrete examples. -/
def pathB : String := "b"

/-- Equality leaf on field a with value 5. -/
def exEqA5 : MatchExpr := .cmpK ⟨CompOp.eq, pathA, .numV 5, none⟩

/-- Equality leaf on field b with value 5. -/
def exEqB5 : MatchExpr := .cmpK ⟨CompOp.eq, pathB, .numV 5, none⟩

/-- Equality leaf on field a with value 3. -/
def exEqA3 : MatchExpr := .cmpK ⟨CompOp.eq, pathA, .numV 3, none⟩

/-- The implicit conjunction of equality on a and equality on b (both 5). -/
def exC3lhs : MatchExpr := .andK (.cons exEqA5 (.cons exEqB5 .nil))

/-- The second disjunct of the decomposition-order example: the conjunction
of equality on a and equality on b. -/
def exC3d2 : MatchExpr := .andK (.cons exEqA5 (.cons exEqB5 .nil))

/-- The disjunction of equality a equals 3 with the conjunction above. -/
def exC3rhs : MatchExpr := .orK (.cons exEqA3 (.cons exC3d2 .nil))

/-- Equality leaf on field a with value 1. -/
def exEqA1 : MatchExpr := .cmpK ⟨CompOp.eq, pathA, .numV 1, none⟩

/-- Equality leaf on field b with value 1. -/
def exEqB1 : MatchExpr := .cmpK ⟨CompOp.eq, pathB, .numV 1, none⟩

/-- Conjunction of the two equality leaves on a and b. -/
def exAndAB : MatchExpr := .andK (.cons exEqA1 (.cons exEqB1 .nil))

/-- The $nor atomicity example: a $nor of the leaf on a and the conjunction
over a and b. -/
def exNorChildren : MEList := .cons exEqA1 (.cons exAndAB .nil)

/-- The $nor node over those clauses. -/
def exNorEx : MatchExpr := .norK exNorChildren

/-- The $in leaf over values 1, 2, 3 on field a. -/
def exIn123 : InLeaf := ⟨pathA, [.numV 1, .numV 2, .numV 3], 0, none⟩

/-- The $in leaf over values 1 and 20 on field a. -/
def exIn1and20 : InLeaf := ⟨pathA, [.numV 1, .numV 20], 0, none⟩

/-- The comparison leaf requiring a to be less than 10. -/
def exLtA10 : CompLeaf := ⟨CompOp.lt, pathA, .numV 10, none⟩

/-- A less-or-equal comparison leaf on field a holding NaN. -/
def exNanLte : CompLeaf := ⟨CompOp.lte, pathA, .nanV, none⟩

/-- A greater-or-equal comparison leaf on field a holding NaN. -/
def exNanGte : CompLeaf := ⟨CompOp.gte, pathA, .nanV, none⟩

/-- The internal-expression equality leaf on a with value 5. -/
def exIntEqA5 : CompLeaf := ⟨CompOp.eq, pathA, .numV 5, none⟩

/-- The internal-expression less-or-equal leaf on a with value 5. -/
def exIntLteA5 : CompLeaf := ⟨CompOp.lte, pathA, .numV 5, none⟩

/-- An ordinary comparison leaf: a leaf satisfying the always-false split
predicate nowhere, used by the splitter witnesses. -/
def exLeafA1 : MatchExpr := .cmpK ⟨CompOp.eq, pathA, .numV 1, none⟩

/-- The split predicate that rejects every node. -/
def rejectAll : MatchExpr → List String → Bool := fun _ _ => false

mutual
theorem equivalentME_refl : ∀ a : MatchExpr, equivalentME a a = true
  | .cmpK _ => by simp [equivalentME]
  | .intCmpK _ => by simp [equivalentME]
  | .inK _ => by simp [equivalentME]
  | .existsK _ => by simp [equivalentME]
  | .geoK _ => by simp [equivalentME]
  | .bucketGeoK _ => by simp [equivalentME]
  | .otherK _ _ => by simp [equivalentME]
  | .exprK _ => by simp [equivalentME]
  | .notK c => by simp [equivalentME]; exact equivalentME_refl c
  | .andK cs => by simp [equivalentME]; exact equivalentList_refl cs
  | .orK cs => by simp [equivalentME]; exact equivalentList_refl cs
  | .norK cs => by simp [equivalentME]; exact equivalentList_refl cs
  | .xorK cs => by simp [equivalentME]; exact equivalentList_refl cs

theorem equivalentList_refl : ∀ l : MEList, equivalentList l l = true
  | .nil => by simp [equivalentList]
  | .cons a as => by
      simp [equivalentList]
      exact ⟨equivalentME_refl a, equivalentList_refl as⟩
end

theorem createAndOfNodes_isSome : ∀ cs : MEList, cs ≠ MEList.nil →
    (createAndOfNodes cs).isSome = true
  | .cons _ .nil, _ => rfl
  | .cons _ (.cons _ _), _ => rfl
  | .nil, h => absurd rfl h

theorem createNorOfNodes_isSome : ∀ cs : MEList, cs ≠ MEList.nil →
    (createNorOfNodes cs).isSome = true
  | .cons _ _, _ => rfl
  | .nil, h => absurd rfl h

theorem createAnd_pair_present (p : MEList × MEList)
    (h : ¬(p.1 = MEList.nil ∧ p.2 = MEList.nil)) :
    ((createAndOfNodes p.1).isSome || (createAndOfNodes p.2).isSome) = true := by
  by_cases h1 : p.1 = MEList.nil
  · have h2 : p.2 ≠ MEList.nil := fun hh => h ⟨h1, hh⟩
    simp [createNorOfNodes_isSome, createAndOfNodes_isSome p.2 h2]
  · simp [createAndOfNodes_isSome p.1 h1]

mutual
theorem splitPresentAux : ∀ (expr : MatchExpr) (fields : List String)
    (f : MatchExpr → List String → Bool), connectivesNonempty expr = true →
    (((splitMatchExpressionByFunction expr fields f).1.isSome
        || (splitMatchExpressionByFunction expr fields f).2.isSome) = true
      ∧ splitInvariantOk expr fields f = true)
  | .cmpK c, fields, f, _ => by
      by_cases hf : f (.cmpK c) fields <;>
        simp [splitMatchExpressionByFunction, splitInvariantOk, hf, MatchExpr.category]
  | .intCmpK c, fields, f, _ => by
      by_cases hf : f (.intCmpK c) fields <;>
        simp [splitMatchExpressionByFunction, splitInvariantOk, hf, MatchExpr.category]
  | .inK i, fields, f, _ => by
      by_cases hf : f (.inK i) fields <;>
        simp [splitMatchExpressionByFunction, splitInvariantOk, hf, MatchExpr.category]
  | .existsK p, fields, f, _ => by
      by_cases hf : f (.existsK p) fields <;>
        simp [splitMatchExpressionByFunction, splitInvariantOk, hf, MatchExpr.category]
  | .geoK g, fields, f, _ => by
      by_cases hf : f (.geoK g) fields <;>
        simp [splitMatchExpressionByFunction, splitInvariantOk, hf, MatchExpr.category]
  | .bucketGeoK b, fields, f, _ => by
      by_cases hf : f (.bucketGeoK b) fields <;>
        simp [splitMatchExpressionByFunction, splitInvariantOk, hf, MatchExpr.category]
  | .otherK k p, fields, f, _ => by
      by_cases hf : f (.otherK k p) fields <;> cases k <;>
        simp [splitMatchExpressionByFunction, splitInvariantOk, hf, MatchExpr.category]
  | .exprK ds, fields, f, _ => by
      by_cases hf : f (.exprK ds) fields <;>
        simp [splitMatchExpressionByFunction, splitInvariantOk, hf, MatchExpr.category]
  | .notK c, fields, f, _ => by
      by_cases hf : f (.notK c) fields <;>
        simp [splitMatchExpressionByFunction, splitInvariantOk, hf, MatchExpr.category]
  | .orK cs, fields, f, _ => by
      by_cases hf : f (.orK cs) fields <;>
        simp [splitMatchExpressionByFunction, splitInvariantOk, hf, MatchExpr.category]
  | .xorK cs, fields, f, _ => by
      by_cases hf : f (.xorK cs) fields <;>
        simp [splitMatchExpressionByFunction, splitInvariantOk, hf, MatchExpr.category]
  | .norK cs, fields, f, h => by
      by_cases hf : f (.norK cs) fields
      · simp [splitMatchExpressionByFunction, splitInvariantOk, hf]
      · cases cs with
        | nil => simp [connectivesNonempty] at h
        | cons c rest =>
          refine ⟨?_, by simp [splitInvariantOk, hf, MatchExpr.category]⟩
          simp only [splitMatchExpressionByFunction, hf, MatchExpr.category,
            if_false, Bool.false_eq_true, bne_self_eq_false, ite_false, ite_true]
          by_cases hc : f c fields <;>
            simp [splitNorChildren, hc, createNorOfNodes, hf]
  | .andK cs, fields, f, h => by
      by_cases hf : f (.andK cs) fields
      · simp [splitMatchExpressionByFunction, splitInvariantOk, hf]
      · cases cs with
        | nil => simp [connectivesNonempty] at h
        | cons c rest =>
          have hlist : connectivesNonemptyList (MEList.cons c rest) = true := h
          obtain ⟨hinv, hne⟩ := splitPresentListAux (MEList.cons c rest) fields f hlist
          have hne2 : ¬((splitAndChildren (MEList.cons c rest) fields f).1 = MEList.nil
              ∧ (splitAndChildren (MEList.cons c rest) fields f).2 = MEList.nil) := by
            rcases hne with h1 | h1
            · exact absurd h1 (by simp)
            · exact h1
          refine ⟨?_, by simp [splitInvariantOk, hf, MatchExpr.category, hinv]⟩
          simp only [splitMatchExpressionByFunction, hf, MatchExpr.category,
            if_false, Bool.false_eq_true, bne_self_eq_false, ite_false, ite_true]
          exact createAnd_pair_present _ hne2

theorem splitPresentListAux : ∀ (cs : MEList) (fields : List String)
    (f : MatchExpr → List String → Bool), connectivesNonemptyList cs = true →
    (splitInvariantOkList cs fields f = true
      ∧ (cs = MEList.nil ∨
         ¬((splitAndChildren cs fields f).1 = MEList.nil
            ∧ (splitAndChildren cs fields f).2 = MEList.nil)))
  | .nil, _, _, _ => ⟨rfl, Or.inl rfl⟩
  | .cons c rest, fields, f, h => by
      have h2 : connectivesNonempty c = true ∧ connectivesNonemptyList rest = true := by
        simpa [connectivesNonemptyList, Bool.and_eq_true] using h
      obtain ⟨hcp, hcinv⟩ := splitPresentAux c fields f h2.1
      obtain ⟨hrinv, _⟩ := splitPresentListAux rest fields f h2.2
      refine ⟨by simp [splitInvariantOkList, hcp, hcinv, hrinv], Or.inr ?_⟩
      rintro ⟨ha, hb⟩
      cases hs1 : (splitMatchExpressionByFunction c fields f).1 with
      | some x => simp [splitAndChildren, hs1, optCons] at ha
      | none =>
          rw [hs1] at hcp
          cases hs2 : (splitMatchExpressionByFunction c fields f).2 with
          | none => rw [hs2] at hcp; simp at hcp
          | some y => simp [splitAndChildren, hs2, optCons] at hb
end

/-- C2 (amended): for every input tree in which each $and and $nor node has
at least one child, and for every split predicate, each recursive call of
the splitter returns at least one present output, and the internal assertion
to that effect in the $and branch never fires. -/
theorem C2_split_output_present (expr : MatchExpr) (fields : List String)
    (f : MatchExpr → List String → Bool) (h : connectivesNonempty expr = true) :
    ((splitMatchExpressionByFunction expr fields f).1.isSome
      || (splitMatchExpressionByFunction expr fields f).2.isSome) = true
    ∧ splitInvariantOk expr fields f = true :=
  splitPresentAux expr fields f h

/-- Counterexample for C2 as stated: on the childless conjunction with a
split predicate rejecting every node, both outputs are absent, and on a
conjunction whose only conjunct is a childless conjunction the internal
assertion of the $and branch fires. -/
theorem C2_counterexample :
    splitMatchExpressionByFunction (.andK .nil) [] rejectAll = (none, none)
    ∧ splitInvariantOk (.andK (.cons (.andK .nil) .nil)) [] rejectAll = false :=
  ⟨rfl, rfl⟩

/-- Witness for C2 at a concrete input: splitting a single comparison leaf
with the always-false predicate leaves the leaf in the remainder, so one
output is present and the assertion holds. -/
theorem C2_split_output_present_witness :
    connectivesNonempty exLeafA1 = true
    ∧ ((splitMatchExpressionByFunction exLeafA1 [] rejectAll).1.isSome
        || (splitMatchExpressionByFunction exLeafA1 [] rejectAll).2.isSome) = true
    ∧ splitInvariantOk exLeafA1 [] rejectAll = true :=
  ⟨rfl, (C2_split_output_present exLeafA1 [] rejectAll rfl).1,
    (C2_split_output_present exLeafA1 [] rejectAll rfl).2⟩

/-- C1: the claim states that the internal-expression pairwise comparator
applies the ordinary tie-break table, answering cmp less-or-equal to zero
when the rhs operator is the internal-expression less-or-equal.  The code
compares the rhs kind tag against the ordinary LTE and GTE tags, which an
internal-expression leaf never carries, so both equality-inclusive branches
are dead: on lhs internal-expr-eq a 5 versus rhs internal-expr-lte a 5 the
comparator answers false although cmp is zero, while the ordinary family
comparator on the same payloads answers true. -/
theorem C1_internal_expr_dead_tiebreak :
    (∀ op : CompOp, (internalExprMatchType op == MatchType.LTE) = false) ∧
    (∀ op : CompOp, (internalExprMatchType op == MatchType.GTE) = false) ∧
    isSubsetOfInternalExprCC exIntEqA5 exIntLteA5 = false ∧
    isSubsetOfCompComp exIntEqA5 exIntLteA5 = true :=
  ⟨fun op => by cases op <;> rfl, fun op => by cases op <;> rfl, rfl, rfl⟩

/-- C3: the logical recursion engine tests the rhs disjunction and
conjunction decompositions before the lhs ones; on lhs the implicit
conjunction of a equals 5 and b equals 5 and rhs the disjunction of a equals
3 with that same conjunction, the answer is true, resolved at the
rhs-disjunction step because lhs is a subset of the second disjunct, even
though neither lhs conjunct alone is a subset of rhs. -/
theorem C3_rhs_decomposition_first :
    isSubsetOf exC3lhs exC3rhs = true ∧
    isSubsetOf exC3lhs exC3d2 = true ∧
    isSubsetOf exC3lhs exEqA3 = false ∧
    isSubsetOf exEqA5 exC3rhs = false ∧
    isSubsetOf exEqB5 exC3rhs = false := by
  refine ⟨by decide, by decide, by decide, by decide, by decide⟩

theorem independent_parts (e : MatchExpr) (F : List String)
    (h : isIndependentOf e F = true) :
    hasOnlyRenameableMatchExpressionChildren e = true
    ∧ (depsFields e).all (fieldFreeOf F) = true := by
  unfold isIndependentOf at h
  cases hr : hasOnlyRenameableMatchExpressionChildren e with
  | false => rw [hr] at h; simp at h
  | true =>
      rw [hr] at h
      simp only [Bool.not_true, Bool.false_eq_true, if_false, ite_false] at h
      exact ⟨rfl, h⟩

theorem independent_list_parts : ∀ (cs : MEList) (F : List String),
    allMEList (fun c => isIndependentOf c F) cs = true →
    renameableList cs = true ∧ (depsList cs).all (fieldFreeOf F) = true
  | .nil, _, _ => ⟨rfl, rfl⟩
  | .cons c rest, F, h => by
      have h2 : isIndependentOf c F = true
          ∧ allMEList (fun e => isIndependentOf e F) rest = true := by
        simpa [allMEList, Bool.and_eq_true] using h
      obtain ⟨hcr, hcd⟩ := independent_parts c F h2.1
      obtain ⟨hrr, hrd⟩ := independent_list_parts rest F h2.2
      refine ⟨by simp [renameableList, hcr, hrr], ?_⟩
      simp only [depsList, List.all_append, hcd, hrd, Bool.and_self]

theorem independent_andK (cs : MEList) (F : List String)
    (h : allMEList (fun c => isIndependentOf c F) cs = true) :
    isIndependentOf (.andK cs) F = true := by
  obtain ⟨hr, hd⟩ := independent_list_parts cs F h
  unfold isIndependentOf
  simp only [hasOnlyRenameableMatchExpressionChildren, depsFields, hr, hd, Bool.not_true,
    Bool.false_eq_true, if_false, ite_false]

theorem independent_norK (cs : MEList) (F : List String)
    (h : allMEList (fun c => isIndependentOf c F) cs = true) :
    isIndependentOf (.norK cs) F = true := by
  obtain ⟨hr, hd⟩ := independent_list_parts cs F h
  unfold isIndependentOf
  simp only [hasOnlyRenameableMatchExpressionChildren, depsFields, hr, hd, Bool.not_true,
    Bool.false_eq_true, if_false, ite_false]

theorem splitNor_out_satisfies (f : MatchExpr → List String → Bool) :
    ∀ (cs : MEList) (fields : List String),
    allMEList (fun c => f c fields) (splitNorChildren cs fields f).1 = true
  | .nil, _ => rfl
  | .cons c rest, fields => by
      by_cases hc : f c fields <;>
        simp [splitNorChildren, hc, allMEList, splitNor_out_satisfies f rest fields]

mutual
theorem c4Aux : ∀ (expr : MatchExpr) (F : List String) (m : MatchExpr),
    (splitMatchExpressionByFunction expr F isIndependentOf).1 = some m →
    isIndependentOf m F = true
  | .cmpK c, F, m, h => by
      by_cases hf : isIndependentOf (.cmpK c) F
      · simp [splitMatchExpressionByFunction, hf] at h; subst h; exact hf
      · simp [splitMatchExpressionByFunction, hf, MatchExpr.category] at h
  | .intCmpK c, F, m, h => by
      by_cases hf : isIndependentOf (.intCmpK c) F
      · simp [splitMatchExpressionByFunction, hf] at h; subst h; exact hf
      · simp [splitMatchExpressionByFunction, hf, MatchExpr.category] at h
  | .inK i, F, m, h => by
      by_cases hf : isIndependentOf (.inK i) F
      · simp [splitMatchExpressionByFunction, hf] at h; subst h; exact hf
      · simp [splitMatchExpressionByFunction, hf, MatchExpr.category] at h
  | .existsK p, F, m, h => by
      by_cases hf : isIndependentOf (.existsK p) F
      · simp [splitMatchExpressionByFunction, hf] at h; subst h; exact hf
      · simp [splitMatchExpressionByFunction, hf, MatchExpr.category] at h
  | .geoK g, F, m, h => by
      by_cases hf : isIndependentOf (.geoK g) F
      · simp [splitMatchExpressionByFunction, hf] at h; subst h; exact hf
      · simp [splitMatchExpressionByFunction, hf, MatchExpr.category] at h
  | .bucketGeoK b, F, m, h => by
      by_cases hf : isIndependentOf (.bucketGeoK b) F
      · simp [splitMatchExpressionByFunction, hf] at h; subst h; exact hf
      · simp [splitMatchExpressionByFunction, hf, MatchExpr.category] at h
  | .otherK k p, F, m, h => by
      by_cases hf : isIndependentOf (.otherK k p) F
      · simp [splitMatchExpressionByFunction, hf] at h; subst h; exact hf
      · cases k <;> simp [splitMatchExpressionByFunction, hf, MatchExpr.category] at h
  | .exprK ds, F, m, h => by
      by_cases hf : isIndependentOf (.exprK ds) F
      · simp [splitMatchExpressionByFunction, hf] at h; subst h; exact hf
      · simp [splitMatchExpressionByFunction, hf, MatchExpr.category] at h
  | .notK c, F, m, h => by
      by_cases hf : isIndependentOf (.notK c) F
      · simp [splitMatchExpressionByFunction, hf] at h; subst h; exact hf
      · simp [splitMatchExpressionByFunction, hf, MatchExpr.category] at h
  | .orK cs, F, m, h => by
      by_cases hf : isIndependentOf (.orK cs) F
      · simp [splitMatchExpressionByFunction, hf] at h; subst h; exact hf
      · simp [splitMatchExpressionByFunction, hf, MatchExpr.category] at h
  | .xorK cs, F, m, h => by
      by_cases hf : isIndependentOf (.xorK cs) F
      · simp [splitMatchExpressionByFunction, hf] at h; subst h; exact hf
      · simp [splitMatchExpressionByFunction, hf, MatchExpr.category] at h
  | .norK cs, F, m, h => by
      by_cases hf : isIndependentOf (.norK cs) F
      · simp [splitMatchExpressionByFunction, hf] at h; subst h; exact hf
      · have hall := splitNor_out_satisfies isIndependentOf cs F
        simp only [splitMatchExpressionByFunction, hf, MatchExpr.category, if_false,
          Bool.false_eq_true, bne_self_eq_false, ite_false, ite_true] at h
        cases hcs : (splitNorChildren cs F isIndependentOf).1 with
        | nil => rw [hcs] at h; simp [createNorOfNodes] at h
        | cons x rest =>
            rw [hcs] at h hall
            simp [createNorOfNodes] at h
            subst h
            exact independent_norK _ F hall
  | .andK cs, F, m, h => by
      by_cases hf : isIndependentOf (.andK cs) F
      · simp [splitMatchExpressionByFunction, hf] at h; subst h; exact hf
      · have hall := c4AuxList cs F
        simp only [splitMatchExpressionByFunction, hf, MatchExpr.category, if_false,
          Bool.false_eq_true, bne_self_eq_false, ite_false, ite_true] at h
        cases hcs : (splitAndChildren cs F isIndependentOf).1 with
        | nil => rw [hcs] at h; simp [createAndOfNodes] at h
        | cons x rest =>
            rw [hcs] at h hall
            cases rest with
            | nil =>
                simp [createAndOfNodes] at h
                subst h
                have h3 : isIndependentOf x F = true
                    ∧ allMEList (fun e => isIndependentOf e F) MEList.nil = true := by
                  simpa [allMEList, Bool.and_eq_true] using hall
                exact h3.1
            | cons y ys =>
                simp [createAndOfNodes] at h
                subst h
                exact independent_andK _ F hall

theorem c4AuxList : ∀ (cs : MEList) (F : List String),
    allMEList (fun e => isIndependentOf e F) (splitAndChildren cs F isIndependentOf).1 = true
  | .nil, _ => rfl
  | .cons c rest, F => by
      cases hc : (splitMatchExpressionByFunction c F isIndependentOf).1 with
      | none => simpa [splitAndChildren, hc, optCons] using c4AuxList rest F
      | some x =>
          have hx := c4Aux c F x hc
          simpa [splitAndChildren, hc, optCons, allMEList, hx] using c4AuxList rest F
end

/-- C4: splitting any tree against any field set with the independence
analyzer as split predicate yields an extractable output that, whenever
present, is itself independent of the field set. -/
theorem C4_extracted_is_independent (T : MatchExpr) (F : List String) (m : MatchExpr)
    (h : (splitMatchExpressionByFunction T F isIndependentOf).1 = some m) :
    isIndependentOf m F = true :=
  c4Aux T F m h

/-- Witness for C4: splitting the conjunction over fields a and b against
the set containing b extracts the leaf on a, which is independent of b. -/
theorem C4_extracted_is_independent_witness :
    (splitMatchExpressionByFunction exAndAB [pathB] isIndependentOf).1 = some exEqA1
    ∧ isIndependentOf exEqA1 [pathB] = true :=
  ⟨rfl, C4_extracted_is_independent exAndAB [pathB] exEqA1 rfl⟩

theorem splitNor_eq_filter (f : MatchExpr → List String → Bool) :
    ∀ (cs : MEList) (fields : List String),
    splitNorChildren cs fields f =
      (filterMEList (fun c => f c fields) cs, filterMEList (fun c => !f c fields) cs)
  | .nil, _ => rfl
  | .cons c rest, fields => by
      by_cases hc : f c fields <;>
        simp [splitNorChildren, filterMEList, hc, splitNor_eq_filter f rest fields]

/-- C5: when a $nor node does not itself satisfy the split predicate, the
splitter moves each clause whole: the split-out side is exactly the $nor of
the clauses satisfying the predicate and the remainder the $nor of the
others, with no clause decomposed. -/
theorem C5_nor_clause_atomicity (cs : MEList) (fields : List String)
    (f : MatchExpr → List String → Bool) (h : f (.norK cs) fields = false) :
    splitMatchExpressionByFunction (.norK cs) fields f =
      (createNorOfNodes (filterMEList (fun c => f c fields) cs),
       createNorOfNodes (filterMEList (fun c => !f c fields) cs)) := by
  simp [splitMatchExpressionByFunction, h, MatchExpr.category, splitNor_eq_filter]

/-- Witness for C5 at the spec example: the $nor of the leaf on a and the
conjunction over a and b, split against the set containing b, extracts the
leaf whole and keeps the conjunction whole in the remainder. -/
theorem C5_nor_clause_atomicity_witness :
    isIndependentOf exNorEx [pathB] = false
    ∧ splitMatchExpressionByFunction exNorEx [pathB] isIndependentOf =
        (some (.norK (.cons exEqA1 .nil)), some (.norK (.cons exAndAB .nil))) :=
  ⟨rfl, (C5_nor_clause_atomicity exNorChildren [pathB] isIndependentOf rfl).trans rfl⟩

theorem compMatchType_ne_not (op : CompOp) :
    (compMatchType op != MatchType.NOT) = true := by
  cases op <;> rfl

/-- C8: the subsumption rule for an $exists rhs agrees with the rule as the
specification states it, for every lhs node and every rhs path. -/
theorem C8_exists_rhs_rule (lhs : MatchExpr) (rpath : String) :
    isSubsetOfExistsRhs lhs rpath = specExistsSubset lhs rpath := by
  cases lhs
  case cmpK c =>
    by_cases hp : c.path = rpath <;>
      simp [isSubsetOfExistsRhs, specExistsSubset, MatchExpr.matchType, MatchExpr.path,
        compMatchType_ne_not, hp]
  case otherK k p =>
    cases k <;> by_cases hp : p = rpath <;>
      simp [isSubsetOfExistsRhs, specExistsSubset, MatchExpr.matchType, MatchExpr.path, hp]
  case inK i =>
    by_cases hp : i.path = rpath <;>
      simp [isSubsetOfExistsRhs, specExistsSubset, MatchExpr.matchType, MatchExpr.path, hp]
  case existsK p =>
    by_cases hp : p = rpath <;>
      simp [isSubsetOfExistsRhs, specExistsSubset, MatchExpr.matchType, MatchExpr.path, hp]
  case geoK g =>
    by_cases hp : g.path = rpath <;>
      simp [isSubsetOfExistsRhs, specExistsSubset, MatchExpr.matchType, MatchExpr.path, hp]
  case notK child =>
    by_cases hp : MatchExpr.path child = rpath
    · cases child
      all_goals simp only [MatchExpr.path] at hp
      all_goals
        try simp [isSubsetOfExistsRhs, specExistsSubset, MatchExpr.matchType, MatchExpr.path,
          hp]
      all_goals
        (rename_i c
         by_cases hop : c.op = CompOp.eq <;>
           simp [isSubsetOfExistsRhs, specExistsSubset, MatchExpr.matchType, MatchExpr.path,
             hp, hop])
    · simp [isSubsetOfExistsRhs, specExistsSubset, MatchExpr.matchType, hp]
  all_goals
    simp [isSubsetOfExistsRhs, specExistsSubset, MatchExpr.matchType, MatchExpr.path]

/-- C6: for ordinary comparison leaves on the same path with the same
canonical type family, when either operand is NaN the pairwise comparator
answers true exactly when both operators support equality and both operands
are NaN, and false in every other NaN case. -/
theorem C6_nan_pairwise (lhs rhs : CompLeaf) (hpath : lhs.path = rhs.path)
    (htype : canonicalType lhs.value = canonicalType rhs.value)
    (hnan : (isNaN lhs.value || isNaN rhs.value) = true) :
    isSubsetOfCompComp lhs rhs =
      (supportsEquality lhs.op && supportsEquality rhs.op &&
        isNaN lhs.value && isNaN rhs.value) := by
  unfold isSubsetOfCompComp
  simp [hpath, htype, hnan]
  cases h1 : supportsEquality lhs.op <;> cases h2 : supportsEquality rhs.op <;> simp

/-- Witness for C6 at the concrete NaN leaves: lte NaN under gte NaN, where
both operators support equality and both operands are NaN, so the comparator
answers true. -/
theorem C6_nan_pairwise_witness :
    exNanLte.path = exNanGte.path ∧
    canonicalType exNanLte.value = canonicalType exNanGte.value ∧
    (isNaN exNanLte.value || isNaN exNanGte.value) = true ∧
    isSubsetOfCompComp exNanLte exNanGte = true :=
  ⟨rfl, rfl, rfl, (C6_nan_pairwise exNanLte exNanGte rfl rfl rfl).trans rfl⟩

/-- C7: a $in lhs is a subset of an ordinary comparison rhs on the same path
exactly when the $in has no regex members and every equality member, treated
as an equality leaf on the $in path with the $in collation, is itself a
subset of rhs under the pairwise comparator. -/
theorem C7_in_lhs_vs_comparison (i : InLeaf) (r : CompLeaf) (hpath : i.path = r.path) :
    isSubsetOf (.inK i) (.cmpK r) =
      (decide (i.regexCount = 0) &&
        i.equalities.all fun elem =>
          isSubsetOfCompComp ⟨CompOp.eq, i.path, elem, i.collator⟩ r) := by
  obtain ⟨ip, ieqs, irc, icoll⟩ := i
  simp only [InLeaf.path] at hpath
  simp [isSubsetOf, isSubsetOfLhs, equivalentME, isSubsetOfDispatch, isSubsetOfCompRhs,
        MatchExpr.path, hpath]

/-- Witness for C7 at the two scenario inputs: the $in over 1, 2, 3 is a
subset of less-than 10 on the same field, and the $in over 1 and 20 is not. -/
theorem C7_in_lhs_vs_comparison_witness :
    isSubsetOf (.inK exIn123) (.cmpK exLtA10) = true ∧
    isSubsetOf (.inK exIn1and20) (.cmpK exLtA10) = false :=
  ⟨(C7_in_lhs_vs_comparison exIn123 exLtA10 rfl).trans (by decide),
   (C7_in_lhs_vs_comparison exIn1and20 exLtA10 rfl).trans (by decide)⟩

/-- C9: the logical recursion engine is reflexive, settled by the
structural-equivalence fast path before any decomposition rule is tried. -/
theorem C9_isSubsetOf_reflexive (T : MatchExpr) :
    equivalentME T T = true ∧ isSubsetOf T T = true := by
  refine ⟨equivalentME_refl T, ?_⟩
  cases T <;> simp [isSubsetOf, isSubsetOfLhs, equivalentME_refl]

/-- C10: a $in lhs with no regex members and an empty equality set is
reported as a subset of any ordinary comparison rhs on the same path: the
universally quantified check over equality members is vacuously satisfied. -/
theorem C10_empty_in_subset (p : String) (coll : Collator) (r : CompLeaf)
    (hpath : p = r.path) :
    isSubsetOf (.inK ⟨p, [], 0, coll⟩) (.cmpK r) = true := by
  subst hpath
  simp [isSubsetOf, isSubsetOfLhs, equivalentME, isSubsetOfDispatch, isSubsetOfCompRhs,
        MatchExpr.path]

/-- Witness for C10: the empty $in on field a is a subset of less-than 10 on
field a. -/
theorem C10_empty_in_subset_witness :
    pathA = exLtA10.path ∧
    isSubsetOf (.inK ⟨pathA, [], 0, none⟩) (.cmpK exLtA10) = true :=
  ⟨rfl, C10_empty_in_subset pathA none exLtA10 rfl⟩

end MongoMatcher
